import Mathlib

/-
Shallow embedding of src/main.py (SteamTools-Manifest2Lua).

Python strings are embedded as lists of characters, HTTP bodies as lists
of byte values.  Network responses, the GitHub metadata API and the
external vdf library (vdf.loads) are oracles passed in as parameters;
the filesystem contents of the save directory are an explicit list of
filenames threaded through the pipeline.  Side effects relevant to the
claims (directory creation, repository searches, file fetches and
writes) are recorded in an event trace returned alongside each result.
Exceptions raised by the Python code are modelled with Except Unit.
-/

namespace M2L

/-- Characters of a Python string. -/
abbrev Str := List Char

/-- Bytes of an HTTP response body. -/
abbrev Bytes := List Nat

/-- Outcome of one GET against one mirror URL: HTTP 200 with a body,
a non-200 status code, or an aiohttp.ClientError. -/
inductive MirrorResp
  | ok (body : Bytes)
  | badStatus (code : Nat)
  | connError
deriving DecidableEq

/-- The body when the response is HTTP 200, otherwise none. -/
def MirrorResp.body? : MirrorResp → Option Bytes
  | .ok b => some b
  | .badStatus _ => none
  | .connError => none

/-- The global repos list of main.py. -/
def repos : List Str :=
  ["SteamAutoCracks/ManifestHub".toList,
   "ikun0014/ManifestHub".toList,
   "Auiowu/ManifestAutoUpdate".toList,
   "tymolu233/ManifestAutoUpdate-fix".toList]

/-- The ordered mirror URL list built inside the function get of main.py. -/
def url_list (repo sha path : Str) : List Str :=
  ["https://jsdelivr.pai233.top/gh/".toList ++ repo ++ ('@' :: sha) ++ ('/' :: path),
   "https://cdn.jsdmirror.com/gh/".toList ++ repo ++ ('@' :: sha) ++ ('/' :: path),
   "https://raw.gitmirror.com/".toList ++ repo ++ ('/' :: sha) ++ ('/' :: path),
   "https://raw.dgithub.xyz/".toList ++ repo ++ ('/' :: sha) ++ ('/' :: path),
   "https://gh.akass.cn/".toList ++ repo ++ ('/' :: sha) ++ ('/' :: path)]

/-- One pass of the inner for-loop of get: visit the urls in order, return
on the first HTTP 200.  The oracle resp gives the response of the mirror
at each position; the first component of the result lists the urls
actually contacted, in order. -/
def attemptOnce (resp : Nat → MirrorResp) : Nat → List Str → List Str × Option Bytes
  | _, [] => ([], none)
  | i, u :: rest =>
    match (resp i).body? with
    | some b => ([u], some b)
    | none =>
      let pr := attemptOnce resp (i + 1) rest
      (u :: pr.1, pr.2)

/-- The while-retry loop of get.  The oracle net gives, per attempt index
and mirror position, the response of that mirror on that attempt.  The
trace pairs each contacted url with its attempt index. -/
def getLoop (net : Nat → Nat → MirrorResp) (urls : List Str) :
    Nat → Nat → List (Nat × Str) × Option Bytes
  | _, 0 => ([], none)
  | a, r + 1 =>
    let pr := attemptOnce (net a) 0 urls
    match pr.2 with
    | some b => (pr.1.map (Prod.mk a), some b)
    | none =>
      let pr2 := getLoop net urls (a + 1) r
      (pr.1.map (Prod.mk a) ++ pr2.1, pr2.2)

/-- The function get(sha, path, repo) of main.py: retry budget 3, each
attempt iterating the full mirror list in order, first HTTP 200 wins;
returns None after the budget is exhausted. -/
def get (net : Nat → Nat → MirrorResp) (sha path repo : Str) :
    List (Nat × Str) × Option Bytes :=
  getLoop net (url_list repo sha path) 0 3

/-- Python str.strip(): remove leading and trailing whitespace. -/
def pyStrip (s : Str) : Str :=
  ((s.dropWhile Char.isWhitespace).reverse.dropWhile Char.isWhitespace).reverse

/-- Python str.split(sep) for a one-character separator: the empty string
splits to one empty segment, and adjacent separators produce empty
segments. -/
def splitSep (sep : Char) : Str → List Str
  | [] => [[]]
  | c :: rest =>
    match splitSep sep rest with
    | [] => [[]]
    | s :: ss => if c = sep then [] :: (s :: ss) else (c :: s) :: ss

/-- Python str.isdecimal(): nonempty and all decimal digits. -/
def pyIsDecimal (s : Str) : Bool := !s.isEmpty && s.all Char.isDigit

/-- Lines 134 and 135 of main.py: strip the raw token, split on the
hyphen, keep the decimal segments and take the first.  The none case is
the IndexError raised by app_id_list[0] on an empty list. -/
def normalize_appid (s : Str) : Option Str :=
  ((splitSep '-' (pyStrip s)).filter pyIsDecimal).head?

/-- A parsed VDF document as produced by vdf.loads: every node is a
string leaf or a mapping whose insertion order is preserved. -/
inductive Vdf
  | vstr (s : Str)
  | vmap (entries : List (Str × Vdf))

/-- Python dict lookup on the insertion-ordered entry list. -/
def vdfLookup (entries : List (Str × Vdf)) (k : Str) : Option Vdf :=
  match entries with
  | [] => none
  | e :: rest => if e.1 = k then some e.2 else vdfLookup rest k

/-- The depot extraction of get_manifest: depots_config[depots] followed
by the loop reading DecryptionKey of each depot entry.  Every error case
is a Python exception: indexing a string with a string key, a missing
key, or iterating items() of a string.  A DecryptionKey that is itself a
mapping is also an error here; record values are strings in the model,
and upstream key files only carry string keys. -/
def get_depot_records (doc : Vdf) : Except Unit (List (Str × Str)) :=
  match doc with
  | .vstr _ => .error ()
  | .vmap entries =>
    match vdfLookup entries "depots".toList with
    | none => .error ()
    | some (.vstr _) => .error ()
    | some (.vmap depots) =>
      depots.mapM fun e =>
        match e.2 with
        | .vstr _ => .error ()
        | .vmap info =>
          match vdfLookup info "DecryptionKey".toList with
          | some (.vstr k) => .ok (e.1, k)
          | _ => .error ()

/-- Side effects of the pipeline that the claims talk about. -/
inductive Event
  | mkdir (dir : Str)
  | searchRepo (repo : Str)
  | fetchFile (repo sha path : Str)
  | writeFile (path : Str)
deriving DecidableEq

/-- The fields of the branch API response that main.py reads. -/
structure BranchInfo where
  sha : Str
  treeUrl : Str
  date : Str

/-- The external world of one run: the branch metadata API, the tree
API, the result of the function get per (repo, sha, path), and
content.decode followed by vdf.loads for a fetched key file. -/
structure Env where
  branches : Str → Str → Option BranchInfo
  trees : Str → Option (List Str)
  fetchRes : Str → Str → Str → Option Bytes
  decode : Bytes → Except Unit Vdf

/-- An Env whose fetch results are computed by the modelled get over a
per-file network oracle. -/
def Env.ofNet (net : Str → Str → Str → Nat → Nat → MirrorResp)
    (branches : Str → Str → Option BranchInfo) (trees : Str → Option (List Str))
    (decode : Bytes → Except Unit Vdf) : Env :=
  { branches := branches, trees := trees, decode := decode,
    fetchRes := fun repo sha path => (get (net repo sha path) sha path repo).2 }

/-- The manifest filename extension. -/
def manifestExt : Str := ".manifest".toList

/-- The vdf_paths list of download_and_process. -/
def vdf_paths : List Str :=
  ["Key.vdf".toList, "key.vdf".toList, "config.vdf".toList]

/-- The function get_manifest(sha, path, save_dir, repo) of main.py.
The filesystem of the save directory is the list fs of filenames
present; the result carries the collected depots and the new filesystem,
and the Except error is an exception re-raised by the except block after
logging.  A fetch that returns None, or empty content, takes the falsy
branch of the if and yields no records. -/
def get_manifest (env : Env) (repo sha : Str) (fs : List Str) (path : Str) :
    List Event × Except Unit (List (Str × Str) × List Str) :=
  if manifestExt.isSuffixOf path then
    if path ∈ fs then ([], .ok ([], fs))
    else
      match env.fetchRes repo sha path with
      | none => ([Event.fetchFile repo sha path], .ok ([], fs))
      | some content =>
        if content.isEmpty then ([Event.fetchFile repo sha path], .ok ([], fs))
        else ([Event.fetchFile repo sha path, Event.writeFile path], .ok ([], fs ++ [path]))
  else if path ∈ vdf_paths then
    match env.fetchRes repo sha path with
    | none => ([Event.fetchFile repo sha path], .ok ([], fs))
    | some content =>
      if content.isEmpty then ([Event.fetchFile repo sha path], .ok ([], fs))
      else
        match env.decode content with
        | .error _ => ([Event.fetchFile repo sha path], .error ())
        | .ok doc =>
          match get_depot_records doc with
          | .error _ => ([Event.fetchFile repo sha path], .error ())
          | .ok recs => ([Event.fetchFile repo sha path], .ok (recs, fs))
  else ([], .ok ([], fs))

/-- The first for-loop of download_and_process over the tree: call
get_manifest on each entry named in vdf_paths, stop at the first
nonempty result; an empty result moves on to the next candidate. -/
def key_phase (env : Env) (repo sha : Str) :
    List Str → List Str → List Event × Except Unit (List (Str × Str) × List Str)
  | fs, [] => ([], .ok ([], fs))
  | fs, p :: rest =>
    if p ∈ vdf_paths then
      match get_manifest env repo sha fs p with
      | (ev, .error e) => (ev, .error e)
      | (ev, .ok (recs, fs1)) =>
        if recs.isEmpty then
          let pr := key_phase env repo sha fs1 rest
          (ev ++ pr.1, pr.2)
        else (ev, .ok (recs, fs1))
    else key_phase env repo sha fs rest

/-- The second for-loop of download_and_process over the tree: call
get_manifest on every entry ending in the manifest extension and extend
the collected depots with each result. -/
def manifest_phase (env : Env) (repo sha : Str) :
    List Str → List Str → List Event × Except Unit (List (Str × Str) × List Str)
  | fs, [] => ([], .ok ([], fs))
  | fs, p :: rest =>
    if manifestExt.isSuffixOf p then
      match get_manifest env repo sha fs p with
      | (ev, .error e) => (ev, .error e)
      | (ev, .ok (recs, fs1)) =>
        match manifest_phase env repo sha fs1 rest with
        | (ev2, .error e) => (ev ++ ev2, .error e)
        | (ev2, .ok (recs2, fs2)) => (ev ++ ev2, .ok (recs ++ recs2, fs2))
    else manifest_phase env repo sha fs rest

/-- The body of the repo loop of download_and_process for one repo:
resolve the branch named by the app id, follow the tree url, then run
the key phase and the manifest phase.  A missing commit or tree falls
through with no records. -/
def process_repo (env : Env) (appId : Str) (fs : List Str) (repo : Str) :
    List Event × Except Unit (List (Str × Str) × List Str) :=
  let core : List Event × Except Unit (List (Str × Str) × List Str) :=
    match env.branches repo appId with
    | none => ([], .ok ([], fs))
    | some bi =>
      match env.trees bi.treeUrl with
      | none => ([], .ok ([], fs))
      | some tree =>
        match key_phase env repo bi.sha fs tree with
        | (ev, .error e) => (ev, .error e)
        | (ev, .ok (recs, fs1)) =>
          match manifest_phase env repo bi.sha fs1 tree with
          | (ev2, .error e) => (ev ++ ev2, .error e)
          | (ev2, .ok (recs2, fs2)) => (ev ++ ev2, .ok (recs ++ recs2, fs2))
  (Event.searchRepo repo :: core.1, core.2)

/-- The for-loop of download_and_process over the repos list: return the
collected depots of the first repo that yields any; a repo with no
records falls through to the next one, keeping files already written. -/
def repo_loop (env : Env) (appId : Str) :
    List Str → List Str → List Event × Except Unit (List (Str × Str) × List Str)
  | fs, [] => ([], .ok ([], fs))
  | fs, repo :: rest =>
    match process_repo env appId fs repo with
    | (ev, .error e) => (ev, .error e)
    | (ev, .ok (recs, fs1)) =>
      if recs.isEmpty then
        let pr := repo_loop env appId fs1 rest
        (ev ++ pr.1, pr.2)
      else (ev, .ok (recs, fs1))

/-- The save directory name of line 137 of main.py. -/
def saveDirName (appId gameName : Str) : Str :=
  '[' :: (appId ++ (']' :: gameName))

/-- The function download_and_process(app_id, game_name) of main.py.
The error on a failed normalization is the IndexError of line 135; the
mkdir event is the makedirs call of line 138, placed before the repo
loop; the result pairs the collected depots with the save directory name
and the final filesystem. -/
def download_and_process (env : Env) (appIdRaw gameName : Str) (fs0 : List Str) :
    List Event × Except Unit (List (Str × Str) × Str × List Str) :=
  match normalize_appid appIdRaw with
  | none => ([], .error ())
  | some appId =>
    let sd := saveDirName appId gameName
    let pr := repo_loop env appId fs0 repos
    (Event.mkdir sd :: pr.1,
     match pr.2 with
     | .error e => .error e
     | .ok (recs, fsF) => .ok (recs, sd, fsF))

/-- The manifest_files list comprehension of parse_vdf_to_lua: filenames
of the listing that start with the depot id followed by an underscore
and end with the manifest extension. -/
def manifestFilesFor (depot_id : Str) (listing : List Str) : List Str :=
  listing.filter fun f => (depot_id ++ ['_']).isPrefixOf f && manifestExt.isSuffixOf f

/-- The slice manifest_file[len(depot_id) + 1 : -len(manifestExt)] of
parse_vdf_to_lua, with Python clamping semantics. -/
def manifestIdOf (depot_id : Str) (f : Str) : Str :=
  (f.drop (depot_id.length + 1)).take (f.length - 9 - (depot_id.length + 1))

/-- The function parse_vdf_to_lua(depot_info, appid, save_dir) of
main.py, with the os.listdir result passed in as the listing. -/
def parse_vdf_to_lua (depot_info : List (Str × Str)) (appid : Str) (listing : List Str) : Str :=
  List.intercalate ['\n']
    (("addappid(".toList ++ appid ++ [')']) ::
      depot_info.flatMap fun dk =>
        ("addappid(".toList ++ dk.1 ++ ",1,\"".toList ++ dk.2 ++ "\")".toList) ::
          (manifestFilesFor dk.1 listing).map fun f =>
            "setManifestid(".toList ++ dk.1 ++ ",\"".toList ++
              manifestIdOf dk.1 f ++ "\",0)".toList)

/-- The script-writing decision of main(): the Lua text written when the
collected depots are nonempty, none when they are empty or when
download_and_process raised. -/
def main_script (env : Env) (appid gameName : Str) (fs0 : List Str) : Option Str :=
  match (download_and_process env appid gameName fs0).2 with
  | .error _ => none
  | .ok (recs, _, fsF) =>
    if recs.isEmpty then none else some (parse_vdf_to_lua recs appid fsF)

/-- An environment whose first repo resolves to a tree holding a key
file and a manifest file, whose fetches all succeed with one byte of
content, and whose key-file decoding always fails. -/
def envParseErr : Env :=
  { branches := fun _ _ => some { sha := [], treeUrl := [], date := [] },
    trees := fun _ => some ["Key.vdf".toList, "10_1.manifest".toList],
    fetchRes := fun _ _ _ => some [1],
    decode := fun _ => .error () }

/-- An environment in which every fetch fails. -/
def envFetchNone : Env :=
  { branches := fun _ _ => none, trees := fun _ => none,
    fetchRes := fun _ _ _ => none, decode := fun _ => .error () }

/-- The save-directory listing after a phase result: the filesystem it
carries, or the given one when the phase raised. -/
def fsAfter (r : List Event × Except Unit (List (Str × Str) × List Str))
    (dflt : List Str) : List Str :=
  match r.2 with
  | .ok pr => pr.2
  | .error _ => dflt

/-- A mirror pass over urls on which every response fails visits every
url in order and yields nothing. -/
theorem attemptOnce_fail (resp : Nat → MirrorResp) (h : ∀ i, (resp i).body? = none) :
    ∀ (urls : List Str) (s : Nat), attemptOnce resp s urls = (urls, none) := by
  intro urls
  induction urls with
  | nil => intro s; rfl
  | cons u rest ih => intro s; simp [attemptOnce, h s, ih]

/-- The retry loop under an always-failing network makes one full pass
per remaining retry and yields nothing. -/
theorem getLoop_fail (net : Nat → Nat → MirrorResp) (urls : List Str)
    (h : ∀ a i, (net a i).body? = none) :
    ∀ (r a : Nat), getLoop net urls a r =
      ((List.range r).flatMap fun j => urls.map (Prod.mk (a + j)), none) := by
  intro r
  induction r with
  | zero => intro a; simp [getLoop]
  | succ n ih =>
    intro a
    simp [getLoop, attemptOnce_fail (net a) (h a), ih,
      List.range_succ_eq_map, List.flatMap_map, Nat.succ_eq_add_one,
      Nat.add_assoc, Nat.add_comm, Nat.add_left_comm]

/-- C2: when every mirror fails on every attempt, get makes exactly
three full passes, in order, over the ordered mirror list, and returns
the definitive failure value none to its caller. -/
theorem C2_all_mirrors_fail_three_passes (net : Nat → Nat → MirrorResp)
    (sha path repo : Str) (h : ∀ a i, (net a i).body? = none) :
    get net sha path repo =
      ([0, 1, 2].flatMap fun a => (url_list repo sha path).map (Prod.mk a), none) := by
  rw [get, getLoop_fail net _ h 3 0]
  simp [List.range_succ, List.range_zero]

/-- Witness for C2 on a network on which every mirror answers 404. -/
theorem C2_all_mirrors_fail_three_passes_witness :
    get (fun _ _ => MirrorResp.badStatus 404) "s".toList "p".toList "r".toList =
      ([0, 1, 2].flatMap fun a =>
        (url_list "r".toList "s".toList "p".toList).map (Prod.mk a), none) :=
  C2_all_mirrors_fail_three_passes _ _ _ _ (fun _ _ => rfl)

/-- A mirror pass whose first success sits at position k contacts
exactly the first k + 1 urls and returns that body. -/
theorem attemptOnce_success (resp : Nat → MirrorResp) (b : Bytes) :
    ∀ (k s : Nat) (urls : List Str), k < urls.length →
      (∀ i, i < k → (resp (s + i)).body? = none) → (resp (s + k)).body? = some b →
      attemptOnce resp s urls = (urls.take (k + 1), some b) := by
  intro k
  induction k with
  | zero =>
    intro s urls hlen hfail hok
    match urls with
    | u :: rest =>
      simp only [Nat.add_zero] at hok
      simp [attemptOnce, hok]
  | succ n ih =>
    intro s urls hlen hfail hok
    match urls with
    | u :: rest =>
      have h0 : (resp s).body? = none := by
        have := hfail 0 (by omega)
        simpa using this
      have hfail2 : ∀ i, i < n → (resp (s + 1 + i)).body? = none := by
        intro i hi
        have := hfail (i + 1) (by omega)
        have e : s + (i + 1) = s + 1 + i := by omega
        rwa [e] at this
      have hok2 : (resp (s + 1 + n)).body? = some b := by
        have e : s + (n + 1) = s + 1 + n := by omega
        rwa [e] at hok
      have hlen2 : n < rest.length := by simpa using hlen
      simp [attemptOnce, h0, ih (s + 1) rest hlen2 hfail2 hok2]

/-- C3: when on the first attempt mirrors before position k fail and
mirror k answers HTTP 200, get performs exactly one successful read,
returns the body of mirror k, contacts only the first k + 1 mirrors of
attempt 0 and nothing after them, so the failures before k consume no
unit of the retry budget. -/
theorem C3_first_success_short_circuits (net : Nat → Nat → MirrorResp)
    (sha path repo : Str) (k : Nat) (body : Bytes)
    (hk : k < (url_list repo sha path).length)
    (hfail : ∀ i, i < k → (net 0 i).body? = none)
    (hok : (net 0 k).body? = some body) :
    get net sha path repo =
      (((url_list repo sha path).take (k + 1)).map (Prod.mk 0), some body) := by
  have ha : attemptOnce (net 0) 0 (url_list repo sha path) =
      ((url_list repo sha path).take (k + 1), some body) :=
    attemptOnce_success (net 0) body k 0 _ hk (by simpa using hfail) (by simpa using hok)
  rw [get, show (3 : Nat) = 2 + 1 from rfl, getLoop]
  simp [ha]

/-- Witness for C3: the first mirror answers 404 and the second answers
200 with body [7]. -/
theorem C3_first_success_short_circuits_witness :
    get (fun a i => if a == 0 && i == 1 then MirrorResp.ok [7] else MirrorResp.badStatus 404)
      "s".toList "p".toList "r".toList =
      (((url_list "r".toList "s".toList "p".toList).take 2).map (Prod.mk 0), some [7]) :=
  C3_first_success_short_circuits _ _ _ _ 1 [7] (by decide)
    (by intro i hi; obtain rfl : i = 0 := Nat.lt_one_iff.mp hi; rfl) rfl

/-- The head of a filtered list is its first element satisfying the
test. -/
theorem head?_filter_eq_find? (p : Str → Bool) :
    ∀ l : List Str, (l.filter p).head? = l.find? p := by
  intro l
  induction l with
  | nil => rfl
  | cons a t ih =>
    by_cases h : p a <;> simp [List.filter_cons, h, ih, List.find?_cons]

/-- C4: normalization of a raw identifier token extracts exactly the
first decimal-only segment between hyphen separators, so 123-456
normalizes to 123, and a token with no decimal-only segment such as abc
is rejected with no identifier produced. -/
theorem C4_normalize_first_decimal_segment :
    (∀ s : Str, normalize_appid s = (splitSep '-' (pyStrip s)).find? pyIsDecimal)
    ∧ normalize_appid "123-456".toList = some "123".toList
    ∧ normalize_appid "abc".toList = none := by
  refine ⟨fun s => ?_, by decide, by decide⟩
  rw [normalize_appid, head?_filter_eq_find?]

/-- C5: the key-file parse operation on a document whose depots section
maps 10 to DecryptionKey AA and 20 to DecryptionKey BB returns exactly
the records (10, AA), (20, BB) in that order, and on a document with no
depots section it raises the ParseFailure instead of returning any
record sequence. -/
theorem C5_keyfile_parse_records :
    get_depot_records (Vdf.vmap [("depots".toList,
      Vdf.vmap [("10".toList, Vdf.vmap [("DecryptionKey".toList, Vdf.vstr "AA".toList)]),
                ("20".toList, Vdf.vmap [("DecryptionKey".toList, Vdf.vstr "BB".toList)])])]) =
      .ok [("10".toList, "AA".toList), ("20".toList, "BB".toList)]
    ∧ get_depot_records (Vdf.vmap [("other".toList, Vdf.vstr "x".toList)]) = .error () :=
  ⟨rfl, rfl⟩

/-- C6: the binder selects exactly the listed filenames that start with
the depot id followed by an underscore and end with the manifest
extension; on such a filename written as the depot id, an underscore,
a version token and the extension it extracts exactly that token; and
the example listing with depot 10 binds to (10, 111), (10, 222). -/
theorem C6_manifest_binder :
    (∀ (d : Str) (listing : List Str) (f : Str),
      f ∈ manifestFilesFor d listing ↔
        f ∈ listing ∧ (d ++ ['_']).isPrefixOf f ∧ manifestExt.isSuffixOf f)
    ∧ (∀ d rest : Str, manifestIdOf d (d ++ '_' :: (rest ++ manifestExt)) = rest)
    ∧ (manifestFilesFor "10".toList
        ["10_111.manifest".toList, "10_222.manifest".toList, "20_333.manifest".toList]).map
        (fun f => ("10".toList, manifestIdOf "10".toList f)) =
      [("10".toList, "111".toList), ("10".toList, "222".toList)] := by
  refine ⟨?_, ?_, by decide⟩
  · intro d listing f
    simp [manifestFilesFor, List.mem_filter]
  · intro d rest
    have e1 : d ++ '_' :: (rest ++ manifestExt) = (d ++ ['_']) ++ (rest ++ manifestExt) := by
      simp
    have e9 : manifestExt.length = 9 := rfl
    rw [manifestIdOf, e1]
    rw [show d.length + 1 = (d ++ ['_']).length by simp, List.drop_left]
    have e3 : ((d ++ ['_']) ++ (rest ++ manifestExt)).length - 9 - (d ++ ['_']).length =
        rest.length := by
      simp [e9]
      omega
    rw [e3, List.take_left]

/-- C7: the generated script text is exactly one addappid line for the
identifier, then per depot record in order one keyed addappid line
followed by one setManifestid line per matching manifest filename in
listing order, newline-joined with nothing after; in particular the
example inputs render the three expected lines. -/
theorem C7_lua_script_grammar :
    (∀ (appid : Str) (depot_info : List (Str × Str)) (listing : List Str),
      parse_vdf_to_lua depot_info appid listing =
        List.intercalate ['\n']
          (("addappid(".toList ++ appid ++ [')']) ::
            depot_info.flatMap fun dk =>
              ("addappid(".toList ++ dk.1 ++ ",1,\"".toList ++ dk.2 ++ "\")".toList) ::
                (listing.filter fun f =>
                    (dk.1 ++ ['_']).isPrefixOf f && manifestExt.isSuffixOf f).map fun f =>
                  "setManifestid(".toList ++ dk.1 ++ ",\"".toList ++
                    ((f.drop (dk.1.length + 1)).take (f.length - 9 - (dk.1.length + 1))) ++
                    "\",0)".toList))
    ∧ parse_vdf_to_lua [("10".toList, "AA".toList)] "10".toList ["10_111.manifest".toList] =
        "addappid(10)\naddappid(10,1,\"AA\")\nsetManifestid(10,\"111\",0)".toList :=
  ⟨fun _ _ _ => rfl, by decide⟩

/-- None of the three key-file names ends in the manifest extension. -/
theorem vdf_not_manifest (p : Str) (hp : p ∈ vdf_paths) :
    manifestExt.isSuffixOf p = false := by
  fin_cases hp <;> decide

/-- C1 counterexample: with the first repo resolving to a tree holding
Key.vdf and a manifest file, the key-file fetch succeeding and its
parse failing, download_and_process stops with the exception after the
key-file fetch: the trace shows the manifest file is never fetched, so
the run does not continue to the manifest phase and the failure
propagates out of the per-file processing step. -/
theorem C1_counterexample :
    download_and_process envParseErr "10".toList [] [] =
      ([Event.mkdir "[10]".toList,
        Event.searchRepo "SteamAutoCracks/ManifestHub".toList,
        Event.fetchFile "SteamAutoCracks/ManifestHub".toList [] "Key.vdf".toList],
       .error ()) := by
  rfl

/-- C1 amended: a key-file payload whose parse fails (undecodable
document, or document on which the depot extraction fails, such as one
missing the depots section) makes get_manifest raise, and the exception
propagates out of the repo loop and aborts the run before the manifest
phase; only a key-file fetch that yields no payload is treated as zero
DepotRecords with the run continuing. -/
theorem C1_keyfile_parse_failure_propagates :
    (∀ (env : Env) (repo sha : Str) (fs : List Str) (path : Str) (c : Bytes),
      path ∈ vdf_paths → env.fetchRes repo sha path = some c → c.isEmpty = false →
      (env.decode c = .error () ∨
        ∃ doc, env.decode c = .ok doc ∧ get_depot_records doc = .error ()) →
      (get_manifest env repo sha fs path).2 = .error ())
    ∧ (∀ (env : Env) (repo sha : Str) (fs : List Str) (path : Str),
      path ∈ vdf_paths → env.fetchRes repo sha path = none →
      get_manifest env repo sha fs path = ([Event.fetchFile repo sha path], .ok ([], fs)))
    ∧ (∀ (env : Env) (appId : Str) (fs : List Str) (repo : Str) (rest : List Str),
      (process_repo env appId fs repo).2 = .error () →
      (repo_loop env appId fs (repo :: rest)).2 = .error ()) := by
  refine ⟨?_, ?_, ?_⟩
  · intro env repo sha fs path c hp hfetch hne hbad
    have hsuf := vdf_not_manifest path hp
    rcases hbad with hdec | ⟨doc, hdoc, hrec⟩
    · simp [get_manifest, hsuf, hp, hfetch, hne, hdec]
    · simp [get_manifest, hsuf, hp, hfetch, hne, hdoc, hrec]
  · intro env repo sha fs path hp hfetch
    have hsuf := vdf_not_manifest path hp
    simp [get_manifest, hsuf, hp, hfetch]
  · intro env appId fs repo rest herr
    rw [repo_loop]
    rcases hpr : process_repo env appId fs repo with ⟨ev, res⟩
    rw [hpr] at herr
    simp only at herr
    cases res with
    | error e => simp
    | ok pr => simp at herr

/-- Witness for C1 amended, on the counterexample environment for the
propagation parts and on the all-fetches-fail environment for the
continuation part. -/
theorem C1_keyfile_parse_failure_propagates_witness :
    (get_manifest envParseErr "r".toList "s".toList [] "Key.vdf".toList).2 = .error ()
    ∧ get_manifest envFetchNone "r".toList "s".toList [] "Key.vdf".toList =
        ([Event.fetchFile "r".toList "s".toList "Key.vdf".toList], .ok ([], []))
    ∧ (repo_loop envParseErr "10".toList [] ["x".toList]).2 = .error () :=
  ⟨C1_keyfile_parse_failure_propagates.1 envParseErr "r".toList "s".toList [] "Key.vdf".toList
      [1] (by decide) rfl rfl (Or.inl rfl),
   C1_keyfile_parse_failure_propagates.2.1 envFetchNone "r".toList "s".toList []
      "Key.vdf".toList (by decide) rfl,
   C1_keyfile_parse_failure_propagates.2.2 envParseErr "10".toList [] "x".toList [] rfl⟩

/-- C10: when normalization succeeds, the very first side effect of
download_and_process is creating the destination directory named from
the identifier and the display name, before any repository is searched,
and every normal result returns exactly that directory name, including
a run that found no depot records anywhere. -/
theorem C10_savedir_created_first (env : Env) (raw gname : Str) (fs0 : List Str) (appId : Str)
    (h : normalize_appid raw = some appId) :
    (download_and_process env raw gname fs0).1.head? =
      some (Event.mkdir (saveDirName appId gname))
    ∧ ∀ (recs : List (Str × Str)) (dir : Str) (fsF : List Str),
        (download_and_process env raw gname fs0).2 = .ok (recs, dir, fsF) →
        dir = saveDirName appId gname := by
  rw [download_and_process, h]
  refine ⟨rfl, ?_⟩
  intro recs dir fsF hok
  simp only at hok
  rcases hrl : (repo_loop env appId fs0 repos).2 with e | pr
  · rw [hrl] at hok
    simp at hok
  · rw [hrl] at hok
    rcases pr with ⟨recs0, fs1⟩
    simp only [Except.ok.injEq, Prod.mk.injEq] at hok
    exact hok.2.1.symm

/-- Processing a repo always records the search of that repo. -/
theorem process_repo_searches (env : Env) (appId : Str) (fs : List Str) (repo : Str) :
    Event.searchRepo repo ∈ (process_repo env appId fs repo).1 := by
  rw [process_repo]
  exact List.mem_cons_self _ _

/-- The repo loop always searches the repo at the head of its list. -/
theorem repo_loop_head_search (env : Env) (appId : Str) (fs : List Str) (r2 : Str)
    (rest : List Str) :
    Event.searchRepo r2 ∈ (repo_loop env appId fs (r2 :: rest)).1 := by
  have hm := process_repo_searches env appId fs r2
  rw [repo_loop]
  rcases hpe : process_repo env appId fs r2 with ⟨ev2, res2⟩
  rw [hpe] at hm
  cases res2 with
  | error e => simpa using hm
  | ok pr =>
    rcases pr with ⟨recs, fs1⟩
    by_cases hr : recs.isEmpty
    · simp only [hr]
      simp only at hm ⊢
      simp [hr]
      exact Or.inl hm
    · simp [hr]
      exact hm

/-- When every repo yields zero depot records, the repo loop visits
every repo in the list and ends with the empty record collection. -/
theorem repo_loop_all_empty (env : Env) (appId : Str)
    (h : ∀ repo fs, ∃ fs2, (process_repo env appId fs repo).2 = .ok ([], fs2)) :
    ∀ (rl fs : List Str), ∃ tr fsF,
      repo_loop env appId fs rl = (tr, .ok ([], fsF))
      ∧ ∀ repo, repo ∈ rl → Event.searchRepo repo ∈ tr := by
  intro rl
  induction rl with
  | nil => intro fs; exact ⟨[], fs, rfl, by simp⟩
  | cons repo rest ih =>
    intro fs
    obtain ⟨fs2, hpr⟩ := h repo fs
    have hsearch := process_repo_searches env appId fs repo
    rcases hpe : process_repo env appId fs repo with ⟨ev, res⟩
    rw [hpe] at hpr hsearch
    simp only at hpr hsearch
    subst hpr
    obtain ⟨tr2, fsF, htr2, hmem⟩ := ih fs2
    refine ⟨ev ++ tr2, fsF, ?_, ?_⟩
    · rw [repo_loop, hpe]
      simp [htr2]
    · intro r hr
      rcases List.mem_cons.mp hr with rfl | hr2
      · exact List.mem_append_left _ hsearch
      · exact List.mem_append_right _ (hmem r hr2)

/-- C8: a source that resolves but yields zero depot records does not
stop the search, the next source is still attempted; and when every
source yields zero records the pipeline returns the empty record
collection with the save directory as a normal result, has searched
every configured repository, and main writes no script file. -/
theorem C8_source_fallthrough_and_exhaustion :
    (∀ (env : Env) (appId : Str) (fs : List Str) (repo r2 : Str) (rest fs1 : List Str),
      (process_repo env appId fs repo).2 = .ok ([], fs1) →
      Event.searchRepo r2 ∈ (repo_loop env appId fs (repo :: r2 :: rest)).1)
    ∧ (∀ (env : Env) (raw gname : Str) (fs0 : List Str) (appId : Str),
      normalize_appid raw = some appId →
      (∀ repo fs, ∃ fs2, (process_repo env appId fs repo).2 = .ok ([], fs2)) →
      ∃ fsF, (download_and_process env raw gname fs0).2 =
          .ok ([], saveDirName appId gname, fsF)
        ∧ (∀ repo, repo ∈ repos →
            Event.searchRepo repo ∈ (download_and_process env raw gname fs0).1)
        ∧ main_script env raw gname fs0 = none) := by
  constructor
  · intro env appId fs repo r2 rest fs1 hpr
    rcases hpe : process_repo env appId fs repo with ⟨ev, res⟩
    rw [hpe] at hpr
    simp only at hpr
    subst hpr
    rw [repo_loop, hpe]
    simp only [List.isEmpty_nil, if_true]
    exact List.mem_append_right _ (repo_loop_head_search env appId fs1 r2 rest)
  · intro env raw gname fs0 appId h hall
    obtain ⟨tr, fsF, htr, hmem⟩ := repo_loop_all_empty env appId hall repos fs0
    refine ⟨fsF, ?_, ?_, ?_⟩
    · rw [download_and_process, h]
      simp [htr]
    · intro repo hr
      rw [download_and_process, h]
      simp only
      rw [htr]
      exact List.mem_cons_of_mem _ (hmem repo hr)
    · rw [main_script, download_and_process, h]
      simp [htr]

/-- Witness for C8 on the environment in which every lookup fails. -/
theorem C8_source_fallthrough_and_exhaustion_witness :
    (download_and_process envFetchNone "10".toList [] []).2 =
        .ok ([], saveDirName "10".toList [], [])
      ∧ main_script envFetchNone "10".toList [] [] = none
      ∧ Event.searchRepo "ikun0014/ManifestHub".toList ∈
          (download_and_process envFetchNone "10".toList [] []).1
      ∧ Event.searchRepo "b".toList ∈
          (repo_loop envFetchNone "10".toList [] ["a".toList, "b".toList]).1 := by
  obtain ⟨fsF, h1, h2, h3⟩ :=
    C8_source_fallthrough_and_exhaustion.2 envFetchNone "10".toList [] [] "10".toList rfl (fun repo fs => ⟨fs, rfl⟩)
  exact ⟨rfl, h3, h2 _ (by decide),
    C8_source_fallthrough_and_exhaustion.1 envFetchNone "10".toList [] "a".toList "b".toList [] [] rfl⟩

/-- A manifest file already present at the destination is skipped with
no side effect. -/
theorem get_manifest_skip (env : Env) (repo sha : Str) (fs : List Str) (p : Str)
    (hsuf : manifestExt.isSuffixOf p = true) (hp : p ∈ fs) :
    get_manifest env repo sha fs p = ([], .ok ([], fs)) := by
  simp [get_manifest, hsuf, hp]

/-- A missing manifest file whose fetch fails is fetched but not
written. -/
theorem get_manifest_fetch_none (env : Env) (repo sha : Str) (fs : List Str) (p : Str)
    (hsuf : manifestExt.isSuffixOf p = true) (hp : p ∉ fs)
    (hf : env.fetchRes repo sha p = none) :
    get_manifest env repo sha fs p = ([Event.fetchFile repo sha p], .ok ([], fs)) := by
  simp [get_manifest, hsuf, hp, hf]

/-- A missing manifest file whose fetch yields empty content is
fetched but not written. -/
theorem get_manifest_fetch_empty (env : Env) (repo sha : Str) (fs : List Str) (p : Str)
    (hsuf : manifestExt.isSuffixOf p = true) (hp : p ∉ fs)
    (hf : env.fetchRes repo sha p = some []) :
    get_manifest env repo sha fs p = ([Event.fetchFile repo sha p], .ok ([], fs)) := by
  simp [get_manifest, hsuf, hp, hf]

/-- A missing manifest file whose fetch yields content is fetched and
written to the destination. -/
theorem get_manifest_fetch_write (env : Env) (repo sha : Str) (fs : List Str) (p : Str)
    (c : Bytes) (hsuf : manifestExt.isSuffixOf p = true) (hp : p ∉ fs)
    (hf : env.fetchRes repo sha p = some c) (hc : c.isEmpty = false) :
    get_manifest env repo sha fs p =
      ([Event.fetchFile repo sha p, Event.writeFile p], .ok ([], fs ++ [p])) := by
  simp [get_manifest, hsuf, hp, hf, hc]

/-- The manifest phase never raises and collects no records; the
filesystem only grows; no event of the phase fetches or writes a file
already present at the start; and afterwards every manifest entry of
the tree is either on disk or its fetch yields nothing. -/
theorem manifest_phase_structure (env : Env) (repo sha : Str) :
    ∀ (tree fs : List Str), ∃ ev fs2,
      manifest_phase env repo sha fs tree = (ev, .ok ([], fs2))
      ∧ (∀ x, x ∈ fs → x ∈ fs2)
      ∧ (∀ p, p ∈ fs → Event.fetchFile repo sha p ∉ ev ∧ Event.writeFile p ∉ ev)
      ∧ (∀ q, q ∈ tree → manifestExt.isSuffixOf q = true →
          q ∈ fs2 ∨ env.fetchRes repo sha q = none ∨ env.fetchRes repo sha q = some []) := by
  intro tree
  induction tree with
  | nil =>
    intro fs
    exact ⟨[], fs, rfl, fun x hx => hx, by simp, by simp⟩
  | cons p rest ih =>
    intro fs
    cases hsuf : manifestExt.isSuffixOf p with
    | false =>
      obtain ⟨ev, fs2, heq, hmono, hev, hq⟩ := ih fs
      refine ⟨ev, fs2, ?_, hmono, hev, ?_⟩
      · rw [manifest_phase, hsuf]
        simpa using heq
      · intro q hqm hqsuf
        rcases List.mem_cons.mp hqm with rfl | hqr
        · rw [hsuf] at hqsuf; exact absurd hqsuf (by simp)
        · exact hq q hqr hqsuf
    | true =>
      by_cases hp : p ∈ fs
      · obtain ⟨ev, fs2, heq, hmono, hev, hq⟩ := ih fs
        refine ⟨ev, fs2, ?_, hmono, hev, ?_⟩
        · rw [manifest_phase, hsuf, get_manifest_skip env repo sha fs p hsuf hp]
          simp [heq]
        · intro q hqm hqsuf
          rcases List.mem_cons.mp hqm with rfl | hqr
          · exact Or.inl (hmono q hp)
          · exact hq q hqr hqsuf
      · rcases hf : env.fetchRes repo sha p with _ | c
        · obtain ⟨ev, fs2, heq, hmono, hev, hq⟩ := ih fs
          refine ⟨Event.fetchFile repo sha p :: ev, fs2, ?_, hmono, ?_, ?_⟩
          · rw [manifest_phase, hsuf, get_manifest_fetch_none env repo sha fs p hsuf hp hf]
            simp [heq]
          · intro x hx
            have hne : x ≠ p := fun hxeq => hp (hxeq ▸ hx)
            constructor
            · intro hmem
              rcases List.mem_cons.mp hmem with hhd | htl
              · exact hne (by simpa using hhd)
              · exact (hev x hx).1 htl
            · intro hmem
              rcases List.mem_cons.mp hmem with hhd | htl
              · exact absurd hhd (by simp)
              · exact (hev x hx).2 htl
          · intro q hqm hqsuf
            rcases List.mem_cons.mp hqm with rfl | hqr
            · exact Or.inr (Or.inl hf)
            · exact hq q hqr hqsuf
        · by_cases hc : c.isEmpty
          · have hce : c = [] := by
              cases c with
              | nil => rfl
              | cons b bs => simp at hc
            subst hce
            obtain ⟨ev, fs2, heq, hmono, hev, hq⟩ := ih fs
            refine ⟨Event.fetchFile repo sha p :: ev, fs2, ?_, hmono, ?_, ?_⟩
            · rw [manifest_phase, hsuf, get_manifest_fetch_empty env repo sha fs p hsuf hp hf]
              simp [heq]
            · intro x hx
              have hne : x ≠ p := fun hxeq => hp (hxeq ▸ hx)
              constructor
              · intro hmem
                rcases List.mem_cons.mp hmem with hhd | htl
                · exact hne (by simpa using hhd)
                · exact (hev x hx).1 htl
              · intro hmem
                rcases List.mem_cons.mp hmem with hhd | htl
                · exact absurd hhd (by simp)
                · exact (hev x hx).2 htl
            · intro q hqm hqsuf
              rcases List.mem_cons.mp hqm with rfl | hqr
              · exact Or.inr (Or.inr hf)
              · exact hq q hqr hqsuf
          · have hcf : c.isEmpty = false := by simpa using hc
            obtain ⟨ev, fs2, heq, hmono, hev, hq⟩ := ih (fs ++ [p])
            have hmono2 : ∀ x, x ∈ fs → x ∈ fs2 := fun x hx =>
              hmono x (List.mem_append_left _ hx)
            refine ⟨Event.fetchFile repo sha p :: Event.writeFile p :: ev, fs2, ?_, hmono2,
              ?_, ?_⟩
            · rw [manifest_phase, hsuf,
                get_manifest_fetch_write env repo sha fs p c hsuf hp hf hcf]
              simp [heq]
            · intro x hx
              have hne : x ≠ p := fun hxeq => hp (hxeq ▸ hx)
              have hx2 : x ∈ fs ++ [p] := List.mem_append_left _ hx
              constructor
              · intro hmem
                rcases List.mem_cons.mp hmem with hhd | htl
                · exact hne (by simpa using hhd)
                · rcases List.mem_cons.mp htl with hhd2 | htl2
                  · exact absurd hhd2 (by simp)
                  · exact (hev x hx2).1 htl2
              · intro hmem
                rcases List.mem_cons.mp hmem with hhd | htl
                · exact absurd hhd (by simp)
                · rcases List.mem_cons.mp htl with hhd2 | htl2
                  · exact hne (by simpa using hhd2)
                  · exact (hev x hx2).2 htl2
            · intro q hqm hqsuf
              rcases List.mem_cons.mp hqm with rfl | hqr
              · exact Or.inl (hmono q (List.mem_append_right _ (List.mem_singleton.mpr rfl)))
              · exact hq q hqr hqsuf

/-- A manifest phase started from a filesystem that already satisfies
the after-run invariant leaves the filesystem unchanged. -/
theorem manifest_phase_stable (env : Env) (repo sha : Str) :
    ∀ (tree fs : List Str),
      (∀ q, q ∈ tree → manifestExt.isSuffixOf q = true →
        q ∈ fs ∨ env.fetchRes repo sha q = none ∨ env.fetchRes repo sha q = some []) →
      ∃ ev, manifest_phase env repo sha fs tree = (ev, .ok ([], fs)) := by
  intro tree
  induction tree with
  | nil => intro fs _; exact ⟨[], rfl⟩
  | cons p rest ih =>
    intro fs h
    have hrest := fun q hq => h q (List.mem_cons_of_mem _ hq)
    cases hsuf : manifestExt.isSuffixOf p with
    | false =>
      obtain ⟨ev, hev⟩ := ih fs hrest
      refine ⟨ev, ?_⟩
      rw [manifest_phase, hsuf]
      simpa using hev
    | true =>
      obtain ⟨ev, hev⟩ := ih fs hrest
      by_cases hp : p ∈ fs
      · refine ⟨ev, ?_⟩
        rw [manifest_phase, hsuf, get_manifest_skip env repo sha fs p hsuf hp]
        simp [hev]
      · rcases h p (List.mem_cons_self _ _) hsuf with hpf | hf | hf
        · exact absurd hpf hp
        · refine ⟨Event.fetchFile repo sha p :: ev, ?_⟩
          rw [manifest_phase, hsuf, get_manifest_fetch_none env repo sha fs p hsuf hp hf]
          simp [hev]
        · refine ⟨Event.fetchFile repo sha p :: ev, ?_⟩
          rw [manifest_phase, hsuf, get_manifest_fetch_empty env repo sha fs p hsuf hp hf]
          simp [hev]

/-- C9: running the manifest phase a second time against the same
destination with the same tree skips every file already present,
fetching and writing none of them, leaves the filesystem exactly as the
first run left it, and therefore renders an identical script. -/
theorem C9_manifest_phase_idempotent (env : Env) (repo sha : Str) (fs0 tree : List Str) (ev1 : List Event)
    (recs1 : List (Str × Str)) (fs1 : List Str)
    (h1 : manifest_phase env repo sha fs0 tree = (ev1, .ok (recs1, fs1))) :
    (∀ p, p ∈ fs1 →
        Event.fetchFile repo sha p ∉ (manifest_phase env repo sha fs1 tree).1
        ∧ Event.writeFile p ∉ (manifest_phase env repo sha fs1 tree).1)
    ∧ (manifest_phase env repo sha fs1 tree).2 = .ok ([], fs1)
    ∧ ∀ (recs : List (Str × Str)) (appid : Str),
        parse_vdf_to_lua recs appid (fsAfter (manifest_phase env repo sha fs1 tree) fs1) =
          parse_vdf_to_lua recs appid fs1 := by
  obtain ⟨ev, fs2, heq, hmono, hev, hq⟩ := manifest_phase_structure env repo sha tree fs0
  rw [h1] at heq
  simp only [Prod.mk.injEq, Except.ok.injEq] at heq
  obtain ⟨-, -, hfs⟩ := heq
  rw [← hfs] at hq
  have hq1 : ∀ q, q ∈ tree → manifestExt.isSuffixOf q = true →
      q ∈ fs1 ∨ env.fetchRes repo sha q = none ∨ env.fetchRes repo sha q = some [] := hq
  obtain ⟨ev3, fs3, heq3, hmono3, hev3, hq3⟩ := manifest_phase_structure env repo sha tree fs1
  obtain ⟨ev4, hst⟩ := manifest_phase_stable env repo sha tree fs1 hq1
  refine ⟨?_, ?_, ?_⟩
  · intro p hp
    rw [heq3]
    exact hev3 p hp
  · rw [hst]
  · intro recs appid
    rw [fsAfter, hst]

/-- Witness for C9: one successful first run over a one-manifest tree,
after which the second run leaves the filesystem unchanged. -/
theorem C9_manifest_phase_idempotent_witness :
    (manifest_phase envParseErr "r".toList "s".toList ["10_1.manifest".toList]
        ["10_1.manifest".toList]).2 = .ok ([], ["10_1.manifest".toList]) :=
  (C9_manifest_phase_idempotent envParseErr "r".toList "s".toList [] ["10_1.manifest".toList]
    [Event.fetchFile "r".toList "s".toList "10_1.manifest".toList,
     Event.writeFile "10_1.manifest".toList] [] ["10_1.manifest".toList] rfl).2.1

/-- Witness for C10 on the environment in which every lookup fails. -/
theorem C10_savedir_created_first_witness :
    (download_and_process envFetchNone "10".toList [] []).1.head? =
      some (Event.mkdir (saveDirName "10".toList [])) :=
  (C10_savedir_created_first envFetchNone "10".toList [] [] "10".toList rfl).1

end M2L
